import Mathlib

/-
Shallow embedding of the Bluetooth Mesh AppKey management subsystem
(`app_keys.c` of the NimBLE-Arduino mesh stack).

Modelling choices:
* 16-byte key values and 1-byte AIDs are modelled as `Nat` values; `memcmp`
  equality becomes `Nat` equality and `memset(..., 0, ...)` becomes the value 0.
* The fixed-size global array `apps[CONFIG_BT_MESH_APP_KEY_COUNT]` is modelled
  as a `List AppKey` of slots in array order; a C pointer returned by the
  linear scans (`app_get`, `app_key_alloc`) is the first matching slot, and an
  in-place mutation through that pointer is `replace_first` on the same
  predicate.
* Collaborators are parameters: subnet lookup `subs : Nat → Option Subnet`,
  AID derivation `appId : Nat → Option Nat` (`none` models a nonzero return
  of `bt_mesh_app_id`), the CDB device-key directory and the local device key
  live in `ResolveEnv`.
* Side effects are made explicit in the results: emitted lifecycle events
  (`app_key_evt` fan-out) become a trace `List (Nat × Nat × KeyEvt)` of
  (app_idx, net_idx, event) entries, and calls to `update_app_key_settings`
  become a trace `List (Nat × Bool)` of (app_idx, store?) requests.
* The pending-write tracker `app_key_updates[]` is a `List AppKeyUpdate`;
  `update_app_key_settings` is modelled separately on that list, returning the
  new tracker plus the resulting `StoreEffect` (scheduled flush, or the
  immediate synchronous store/clear fallback).
-/

/-! ## Constants (mesh.h / foundation.h) -/

def BT_MESH_KEY_UNUSED : Nat := 0xffff

def BT_MESH_KEY_ANY : Nat := 0xffff

def BT_MESH_KEY_DEV : Nat := 0xfffe

def BT_MESH_KEY_DEV_LOCAL : Nat := BT_MESH_KEY_DEV

def BT_MESH_KEY_DEV_REMOTE : Nat := 0xfffd

def BT_MESH_IS_DEV_KEY (k : Nat) : Bool :=
  k == BT_MESH_KEY_DEV_LOCAL || k == BT_MESH_KEY_DEV_REMOTE

def BT_MESH_ADDR_IS_UNICAST (addr : Nat) : Bool :=
  addr != 0 && decide (addr < 0x8000)

/-- Key refresh phases (subnet.h): NORMAL, PHASE_1, PHASE_2, PHASE_3. -/
def BT_MESH_KR_NORMAL : Nat := 0

def BT_MESH_KR_PHASE_1 : Nat := 1

def BT_MESH_KR_PHASE_2 : Nat := 2

def BT_MESH_KR_PHASE_3 : Nat := 3

/-- Status codes of the Config-Model closed status set (foundation.h). -/
inductive Status where
  | SUCCESS
  | INVALID_APPKEY
  | INVALID_NETKEY
  | INVALID_BINDING
  | INSUFF_RESOURCES
  | IDX_ALREADY_STORED
  | CANNOT_UPDATE
  | CANNOT_SET
deriving DecidableEq, Repr

/-- Key lifecycle events (enum bt_mesh_key_evt). -/
inductive KeyEvt where
  | ADDED
  | UPDATED
  | DELETED
  | REVOKED
  | SWAPPED
deriving DecidableEq, Repr

/-! ## Data model -/

/-- One key generation: struct bt_mesh_app_cred, an AID `id` and a 16-byte
key value `val` (modelled as a `Nat`). -/
structure AppCred where
  id : Nat
  val : Nat
deriving DecidableEq, Repr, Inhabited

/-- One Key Table slot: struct app_key.  `keys0`, `keys1` are `keys[0]`
(generation 0, old) and `keys[1]` (generation 1, new). -/
structure AppKey where
  net_idx : Nat
  app_idx : Nat
  updated : Bool
  keys0 : AppCred
  keys1 : AppCred
deriving DecidableEq, Repr, Inhabited

/-- A subnet as seen by this subsystem: its net_idx and Key-Refresh phase. -/
structure Subnet where
  net_idx : Nat
  kr_phase : Nat
deriving DecidableEq, Repr, Inhabited

/-- One Pending-Write Tracker slot: struct app_key_update. -/
structure AppKeyUpdate where
  key_idx : Nat
  valid : Bool
  clear : Bool
deriving DecidableEq, Repr, Inhabited

/-- Outbound message context: struct bt_mesh_msg_ctx (the fields used). -/
structure MsgCtx where
  net_idx : Nat
  app_idx : Nat
  addr : Nat
deriving DecidableEq, Repr, Inhabited

/-- Inbound receive context: struct bt_mesh_net_rx (the fields used).
`subNet` is `rx->sub->net_idx`, `newKey` is `rx->new_key`, `addr` is
`rx->ctx.addr`, `recvDst` is `rx->ctx.recv_dst`, and `netIfLocal` says
whether `rx->net_if == BT_MESH_NET_IF_LOCAL`. -/
structure NetRx where
  subNet : Nat
  newKey : Bool
  addr : Nat
  recvDst : Nat
  netIfLocal : Bool
deriving DecidableEq, Repr, Inhabited

/-- External collaborators of the resolver: subnet lookup, the local device
key `bt_mesh.dev_key`, `bt_mesh_has_addr`, CDB availability and the CDB
node device-key directory `bt_mesh_cdb_node_get` (returning the node's
dev_key). -/
structure ResolveEnv where
  subs : Nat → Option Subnet
  devKey : Nat
  hasAddr : Nat → Bool
  cdbEnabled : Bool
  cdbGet : Nat → Option Nat

/-- Result of a lifecycle operation: the returned status, the Key Table
after the call, the `update_app_key_settings` requests made
(app_idx, store?) and the lifecycle events emitted (app_idx, net_idx, evt). -/
structure OpResult where
  status : Status
  apps : List AppKey
  settings : List (Nat × Bool)
  evts : List (Nat × Nat × KeyEvt)
deriving DecidableEq, Repr

def err_result (s : Status) (apps : List AppKey) : OpResult :=
  ⟨s, apps, [], []⟩

/-! ## Key Table primitives -/

/-- app_get: linear scan for the first slot holding `app_idx`. -/
def app_get (apps : List AppKey) (app_idx : Nat) : Option AppKey :=
  apps.find? (fun a => a.app_idx == app_idx)

/-- In-place mutation of the slot the C code found by pointer: replace the
first slot satisfying `p`. -/
def replace_first (p : AppKey → Bool) (b : AppKey) : List AppKey → List AppKey
  | [] => []
  | a :: rest => if p a then b :: rest else a :: replace_first p b rest

/-- bt_mesh_app_key_exists: true iff some slot holds `app_idx`. -/
def bt_mesh_app_key_exists (apps : List AppKey) (app_idx : Nat) : Bool :=
  apps.any (fun a => a.app_idx == app_idx)

/-! ## Pending-Write Tracker -/

/-- Effect of a dirty-mark request on durable storage: either a batched
flush was scheduled, or (tracker full) the store/clear ran immediately. -/
inductive StoreEffect where
  | scheduled
  | storeNow (app_idx : Nat)
  | clearNow (app_idx : Nat)
deriving DecidableEq, Repr

/-- The scan loop of app_key_update_find: walks the whole tracker keeping
the latest valid entry whose key_idx matches (position `m`) and the latest
invalid slot (position `f`). -/
def app_key_update_find_go (key_idx : Nat) :
    List AppKeyUpdate → Nat → Option Nat × Option Nat → Option Nat × Option Nat
  | [], _, st => st
  | u :: rest, i, (m, f) =>
    if u.valid = false then app_key_update_find_go key_idx rest (i + 1) (m, some i)
    else if u.key_idx = key_idx then app_key_update_find_go key_idx rest (i + 1) (some i, f)
    else app_key_update_find_go key_idx rest (i + 1) (m, f)

/-- app_key_update_find: returns (match position, free-slot position). -/
def app_key_update_find (key_idx : Nat) (tr : List AppKeyUpdate) :
    Option Nat × Option Nat :=
  app_key_update_find_go key_idx tr 0 (none, none)

/-- update_app_key_settings: coalesce a store/clear request for `app_idx`
into the tracker, falling back to an immediate synchronous store/clear when
the tracker is full. -/
def update_app_key_settings (app_idx : Nat) (store : Bool)
    (tr : List AppKeyUpdate) : List AppKeyUpdate × StoreEffect :=
  let cl := !store
  match app_key_update_find app_idx tr with
  | (some i, _) =>
    let u := tr.getD i default
    (tr.set i { u with clear := cl }, .scheduled)
  | (none, none) => (tr, if store then .storeNow app_idx else .clearNow app_idx)
  | (none, some j) => (tr.set j ⟨app_idx, true, cl⟩, .scheduled)

/-- bt_mesh_app_key_pending_store: drain the tracker, performing the
recorded store/clear for each valid entry and invalidating it.  Returns the
drained tracker and the list of (key_idx, clear?) operations performed. -/
def bt_mesh_app_key_pending_store :
    List AppKeyUpdate → List AppKeyUpdate × List (Nat × Bool)
  | [] => ([], [])
  | u :: rest =>
    let r := bt_mesh_app_key_pending_store rest
    if u.valid then ({ u with valid := false } :: r.1, (u.key_idx, u.clear) :: r.2)
    else (u :: r.1, r.2)

/-! ## Lifecycle engine -/

/-- app_key_del: empty the slot.  Emits the DELETED event and requests a
settings clear (both with the pre-deletion indices), then resets both index
fields to the UNUSED sentinel and zeroes the key material.  (The C code
does not touch the `updated` flag.)  Returns (new slot contents, settings
request, event). -/
def app_key_del_rec (app : AppKey) :
    AppKey × (Nat × Bool) × (Nat × Nat × KeyEvt) :=
  (⟨BT_MESH_KEY_UNUSED, BT_MESH_KEY_UNUSED, app.updated, ⟨0, 0⟩, ⟨0, 0⟩⟩,
   (app.app_idx, false), (app.app_idx, app.net_idx, .DELETED))

/-- app_key_revoke: no-op unless `updated`; otherwise copy generation 1
(id and value) into generation 0, zero generation 1, drop the `updated`
flag, request a settings store, and emit REVOKED. -/
def app_key_revoke_rec (app : AppKey) :
    AppKey × List (Nat × Bool) × List (Nat × Nat × KeyEvt) :=
  if app.updated = false then (app, [], [])
  else
    ({ app with keys0 := app.keys1, keys1 := ⟨0, 0⟩, updated := false },
     [(app.app_idx, true)], [(app.app_idx, app.net_idx, .REVOKED)])

/-- The per-slot loop body of subnet_evt, folded over every slot in array
order; accumulates the rebuilt table plus the settings requests and events
in slot order. -/
def subnet_evt_go (sub : Subnet) (evt : KeyEvt) :
    List AppKey → List AppKey × List (Nat × Bool) × List (Nat × Nat × KeyEvt)
  | [] => ([], [], [])
  | a :: rest =>
    let r := subnet_evt_go sub evt rest
    if a.app_idx == BT_MESH_KEY_UNUSED then (a :: r.1, r.2.1, r.2.2)
    else if a.net_idx != sub.net_idx then (a :: r.1, r.2.1, r.2.2)
    else if evt = .DELETED then
      let d := app_key_del_rec a
      (d.1 :: r.1, d.2.1 :: r.2.1, d.2.2 :: r.2.2)
    else if evt = .REVOKED then
      let v := app_key_revoke_rec a
      (v.1 :: r.1, v.2.1 ++ r.2.1, v.2.2 ++ r.2.2)
    else if evt = .SWAPPED && a.updated then
      (a :: r.1, r.2.1, (a.app_idx, a.net_idx, .SWAPPED) :: r.2.2)
    else (a :: r.1, r.2.1, r.2.2)

/-- subnet_evt: the subnet lifecycle listener.  UPDATED and ADDED subnet
events are ignored; otherwise every bound record reacts per
`subnet_evt_go`. -/
def subnet_evt (sub : Subnet) (evt : KeyEvt) (apps : List AppKey) :
    List AppKey × List (Nat × Bool) × List (Nat × Nat × KeyEvt) :=
  if evt = .UPDATED ∨ evt = .ADDED then (apps, [], [])
  else subnet_evt_go sub evt apps

/-- bt_mesh_app_key_add.  `app_key_alloc` (existing slot if the index is
already present, else the first UNUSED slot) is rendered by the two nested
`app_get` lookups. -/
def bt_mesh_app_key_add (subs : Nat → Option Subnet) (appId : Nat → Option Nat)
    (apps : List AppKey) (app_idx net_idx key : Nat) : OpResult :=
  if (subs net_idx).isNone then err_result .INVALID_NETKEY apps
  else
    match app_get apps app_idx with
    | some app =>
      if app.net_idx ≠ net_idx then err_result .INVALID_NETKEY apps
      else if app.keys0.val ≠ key then err_result .IDX_ALREADY_STORED apps
      else err_result .SUCCESS apps
    | none =>
      match app_get apps BT_MESH_KEY_UNUSED with
      | none => err_result .INSUFF_RESOURCES apps
      | some free =>
        match appId key with
        | none => err_result .CANNOT_SET apps
        | some aid =>
          let app' : AppKey := ⟨net_idx, app_idx, false, ⟨aid, key⟩, free.keys1⟩
          ⟨.SUCCESS,
           replace_first (fun a => a.app_idx == BT_MESH_KEY_UNUSED) app' apps,
           [(app_idx, true)], [(app_idx, net_idx, .ADDED)]⟩

/-- bt_mesh_app_key_update. -/
def bt_mesh_app_key_update (subs : Nat → Option Subnet) (appId : Nat → Option Nat)
    (apps : List AppKey) (app_idx net_idx key : Nat) : OpResult :=
  match app_get apps app_idx with
  | none => err_result .INVALID_APPKEY apps
  | some app =>
    if net_idx ≠ BT_MESH_KEY_UNUSED ∧ app.net_idx ≠ net_idx then
      err_result .INVALID_BINDING apps
    else
      match subs app.net_idx with
      | none => err_result .INVALID_NETKEY apps
      | some sub =>
        if sub.kr_phase ≠ BT_MESH_KR_PHASE_1 then err_result .CANNOT_UPDATE apps
        else if app.updated then
          if app.keys1.val ≠ key then err_result .IDX_ALREADY_STORED apps
          else err_result .SUCCESS apps
        else
          match appId key with
          | none => err_result .CANNOT_UPDATE apps
          | some aid =>
            let app' := { app with updated := true, keys1 := ⟨aid, key⟩ }
            ⟨.SUCCESS,
             replace_first (fun a => a.app_idx == app_idx) app' apps,
             [(app_idx, true)], [(app_idx, app.net_idx, .UPDATED)]⟩

/-- bt_mesh_app_key_del. -/
def bt_mesh_app_key_del (subs : Nat → Option Subnet) (apps : List AppKey)
    (app_idx net_idx : Nat) : OpResult :=
  if net_idx ≠ BT_MESH_KEY_UNUSED ∧ (subs net_idx).isNone then
    err_result .INVALID_NETKEY apps
  else
    match app_get apps app_idx with
    | none => err_result .SUCCESS apps
    | some app =>
      if net_idx ≠ BT_MESH_KEY_UNUSED ∧ net_idx ≠ app.net_idx then
        err_result .INVALID_BINDING apps
      else
        let d := app_key_del_rec app
        ⟨.SUCCESS, replace_first (fun a => a.app_idx == app_idx) d.1 apps,
         [d.2.1], [d.2.2]⟩

/-- bt_mesh_app_key_set (restore from durable storage).  Returns the C
error code (0, -ENOMEM = -12, -EIO = -5) and the table; the partial writes
of key bytes that precede a failed AID derivation are modelled faithfully. -/
def bt_mesh_app_key_set (appId : Nat → Option Nat) (apps : List AppKey)
    (app_idx net_idx old_key : Nat) (new_key : Option Nat) : Int × List AppKey :=
  match app_get apps app_idx with
  | some _ => (0, apps)
  | none =>
    match app_get apps BT_MESH_KEY_UNUSED with
    | none => (-12, apps)
    | some free =>
      let f1 := { free with keys0 := { free.keys0 with val := old_key } }
      match appId old_key with
      | none => (-5, replace_first (fun a => a.app_idx == BT_MESH_KEY_UNUSED) f1 apps)
      | some aid0 =>
        let f2 := { f1 with keys0 := ⟨aid0, old_key⟩ }
        match new_key with
        | none =>
          (0, replace_first (fun a => a.app_idx == BT_MESH_KEY_UNUSED)
                { f2 with net_idx := net_idx, app_idx := app_idx, updated := false } apps)
        | some nk =>
          let f3 := { f2 with keys1 := { f2.keys1 with val := nk } }
          match appId nk with
          | none => (-5, replace_first (fun a => a.app_idx == BT_MESH_KEY_UNUSED) f3 apps)
          | some aid1 =>
            (0, replace_first (fun a => a.app_idx == BT_MESH_KEY_UNUSED)
                  { f3 with keys1 := ⟨aid1, nk⟩, net_idx := net_idx,
                            app_idx := app_idx, updated := true } apps)

/-- bt_mesh_app_keys_get, loop part: `acc` is the caller buffer filled so
far, `skip` the remaining matches to skip; `none` models -ENOMEM. -/
def keys_get_go (net_idx max : Nat) :
    List AppKey → Nat → List Nat → Option (List Nat)
  | [], _, acc => some acc
  | app :: rest, skip, acc =>
    if app.app_idx = BT_MESH_KEY_UNUSED then keys_get_go net_idx max rest skip acc
    else if net_idx ≠ BT_MESH_KEY_ANY ∧ app.net_idx ≠ net_idx then
      keys_get_go net_idx max rest skip acc
    else if skip ≠ 0 then keys_get_go net_idx max rest (skip - 1) acc
    else if max ≤ acc.length then none
    else keys_get_go net_idx max rest skip (acc ++ [app.app_idx])

/-- bt_mesh_app_keys_get: enumerate up to `max` app indices bound to
`net_idx` (all non-empty slots when `net_idx` is the wildcard), after
skipping the first `skip` matches; `none` models the -ENOMEM capacity
failure. -/
def bt_mesh_app_keys_get (apps : List AppKey) (net_idx max skip : Nat) :
    Option (List Nat) :=
  keys_get_go net_idx max apps skip []

/-! ## Resolver -/

/-- bt_mesh_keys_resolve: TX key-material resolution.  Returns
(subnet, key value, aid), or `none` for the -EINVAL failures. -/
def bt_mesh_keys_resolve (env : ResolveEnv) (apps : List AppKey)
    (ctx : MsgCtx) : Option (Subnet × Nat × Nat) :=
  if BT_MESH_IS_DEV_KEY ctx.app_idx then
    match env.subs ctx.net_idx with
    | none => none
    | some sub =>
      if ctx.app_idx == BT_MESH_KEY_DEV_REMOTE && !env.hasAddr ctx.addr then
        if !env.cdbEnabled then none
        else
          match env.cdbGet ctx.addr with
          | none => none
          | some dk => some (sub, dk, 0)
      else some (sub, env.devKey, 0)
  else
    match app_get apps ctx.app_idx with
    | none => none
    | some app =>
      match env.subs app.net_idx with
      | none => none
      | some sub =>
        if sub.kr_phase = BT_MESH_KR_PHASE_2 ∧ app.updated then
          some (sub, app.keys1.val, app.keys1.id)
        else some (sub, app.keys0.val, app.keys0.id)

/-- The app-key loop of bt_mesh_app_key_find (`dev_key == false` path).
`cb` is the caller's try-decrypt callback; `cb v = true` models the
callback returning 0 (success) on candidate key value `v`. -/
def app_key_find_loop (aid : Nat) (rx : NetRx) (cb : Nat → Bool) :
    List AppKey → Nat
  | [] => BT_MESH_KEY_UNUSED
  | a :: rest =>
    if a.app_idx == BT_MESH_KEY_UNUSED then app_key_find_loop aid rx cb rest
    else if a.net_idx != rx.subNet then app_key_find_loop aid rx cb rest
    else
      let cred := if rx.newKey && a.updated then a.keys1 else a.keys0
      if cred.id != aid then app_key_find_loop aid rx cb rest
      else if cb cred.val then a.app_idx
      else app_key_find_loop aid rx cb rest

/-- bt_mesh_app_key_find: RX key resolution.  For device keys, try the CDB
remote device key then the local device key (unicast destinations only);
for app keys, run the candidate loop.  Returns the owning key index or the
UNUSED sentinel. -/
def bt_mesh_app_key_find (env : ResolveEnv) (dev_key : Bool) (aid : Nat)
    (rx : NetRx) (cb : Nat → Bool) (apps : List AppKey) : Nat :=
  if dev_key then
    let localTry : Nat :=
      if BT_MESH_ADDR_IS_UNICAST rx.recvDst && cb env.devKey then
        BT_MESH_KEY_DEV_LOCAL
      else BT_MESH_KEY_UNUSED
    if env.cdbEnabled && !rx.netIfLocal then
      match env.cdbGet rx.addr with
      | some dk => if cb dk then BT_MESH_KEY_DEV_REMOTE else localTry
      | none => localTry
    else localTry
  else app_key_find_loop aid rx cb apps

/-- The RX candidate predicate the loop realises: a non-empty slot bound to
the receiving subnet whose selected generation (generation 1 when the
new-key wire flag is set and the record is updated, else generation 0)
carries the given AID and whose selected key value the callback accepts. -/
def rx_candidate (aid : Nat) (rx : NetRx) (cb : Nat → Bool) (a : AppKey) : Bool :=
  decide (¬ a.app_idx = BT_MESH_KEY_UNUSED ∧ a.net_idx = rx.subNet ∧
    (if rx.newKey && a.updated then a.keys1 else a.keys0).id = aid ∧
    cb (if rx.newKey && a.updated then a.keys1 else a.keys0).val = true)

/-- The matching app indices of the enumeration, in slot order. -/
def key_matches (net_idx : Nat) (apps : List AppKey) : List Nat :=
  (apps.filter (fun a =>
    decide (a.app_idx ≠ BT_MESH_KEY_UNUSED ∧
      (net_idx = BT_MESH_KEY_ANY ∨ a.net_idx = net_idx)))).map (fun a => a.app_idx)

/-- Number of valid tracker entries recorded for key index `k`. -/
def updCount (k : Nat) (tr : List AppKeyUpdate) : Nat :=
  (tr.filter (fun u => u.valid && u.key_idx == k)).length

/-! ## Helper lemmas -/

theorem mem_replace_first {p : AppKey → Bool} {b a : AppKey} :
    ∀ {l : List AppKey}, a ∈ replace_first p b l → a ∈ l ∨ a = b
  | [], h => by simp [replace_first] at h
  | c :: rest, h => by
    by_cases hc : p c
    · simp [replace_first, hc] at h
      rcases h with h | h
      · exact Or.inr h
      · exact Or.inl (List.mem_cons_of_mem _ h)
    · simp [replace_first, hc] at h
      rcases h with h | h
      · exact Or.inl (by simp [h])
      · rcases mem_replace_first h with h' | h'
        · exact Or.inl (List.mem_cons_of_mem _ h')
        · exact Or.inr h'

theorem app_get_eq_none_iff {apps : List AppKey} {idx : Nat} :
    app_get apps idx = none ↔ ∀ a ∈ apps, a.app_idx ≠ idx := by
  simp [app_get, List.find?_eq_none]

theorem exists_eq_false_iff {apps : List AppKey} {idx : Nat} :
    bt_mesh_app_key_exists apps idx = false ↔ ∀ a ∈ apps, a.app_idx ≠ idx := by
  simp [bt_mesh_app_key_exists]

theorem app_get_mem_of_eq_some {apps : List AppKey} {idx : Nat} {a : AppKey}
    (h : app_get apps idx = some a) : a ∈ apps ∧ a.app_idx = idx := by
  refine ⟨List.mem_of_find?_eq_some h, ?_⟩
  have := List.find?_some h
  simpa using this

theorem exists_replace_first_false {p : AppKey → Bool} {b : AppKey}
    {apps : List AppKey} {idx : Nat}
    (hall : ∀ a ∈ apps, a.app_idx ≠ idx) (hb : b.app_idx ≠ idx) :
    bt_mesh_app_key_exists (replace_first p b apps) idx = false := by
  refine exists_eq_false_iff.mpr (fun a ha => ?_)
  rcases mem_replace_first ha with h | h
  · exact hall a h
  · exact h ▸ hb

/-! ## Claim theorems -/

/-- C4: app_key_revoke is a no-op (no field change, no event, no settings
request) when the updated flag is clear; when it is set, generation 0
becomes the prior generation 1 (key value and AID), generation 1 is
zeroed, updated becomes false, a settings store is requested and the
REVOKED event is emitted. -/
theorem revoke_noop_or_promote (app : AppKey) :
    (app.updated = false → app_key_revoke_rec app = (app, [], [])) ∧
    (app.updated = true →
      app_key_revoke_rec app =
        ({ app with keys0 := app.keys1, keys1 := ⟨0, 0⟩, updated := false },
         [(app.app_idx, true)], [(app.app_idx, app.net_idx, .REVOKED)])) := by
  constructor <;> intro h <;> simp [app_key_revoke_rec, h]

theorem revoke_noop_or_promote_wit :
    app_key_revoke_rec ⟨0, 1, false, ⟨3, 10⟩, ⟨4, 20⟩⟩ =
      (⟨0, 1, false, ⟨3, 10⟩, ⟨4, 20⟩⟩, [], []) ∧
    app_key_revoke_rec ⟨0, 1, true, ⟨3, 10⟩, ⟨4, 20⟩⟩ =
      (⟨0, 1, false, ⟨4, 20⟩, ⟨0, 0⟩⟩, [(1, true)], [(1, 0, .REVOKED)]) :=
  ⟨(revoke_noop_or_promote _).1 rfl, (revoke_noop_or_promote _).2 rfl⟩

/-- C2: outbound resolution of a non-device app_idx whose record and bound
subnet exist returns generation 1's key value and AID exactly when the
subnet is in Key-Refresh Phase 2 and the record is updated, and
generation 0's otherwise. -/
theorem resolve_tx_generation (env : ResolveEnv) (apps : List AppKey) (ctx : MsgCtx)
    (app : AppKey) (sub : Subnet)
    (hdev : BT_MESH_IS_DEV_KEY ctx.app_idx = false)
    (happ : app_get apps ctx.app_idx = some app)
    (hsub : env.subs app.net_idx = some sub) :
    bt_mesh_keys_resolve env apps ctx =
      some (sub,
        (if sub.kr_phase = BT_MESH_KR_PHASE_2 ∧ app.updated then app.keys1 else app.keys0).val,
        (if sub.kr_phase = BT_MESH_KR_PHASE_2 ∧ app.updated then app.keys1 else app.keys0).id) := by
  by_cases h : sub.kr_phase = BT_MESH_KR_PHASE_2 ∧ app.updated <;>
    simp [bt_mesh_keys_resolve, hdev, happ, hsub, h]

theorem resolve_tx_generation_wit :
    bt_mesh_keys_resolve
      ⟨(fun n => if n = 0 then some ⟨0, 2⟩ else none), 77, fun _ => true, false, fun _ => none⟩
      [⟨0, 1, true, ⟨3, 10⟩, ⟨4, 20⟩⟩] ⟨0, 1, 9⟩ = some (⟨0, 2⟩, 20, 4) :=
  (resolve_tx_generation
    ⟨(fun n => if n = 0 then some ⟨0, 2⟩ else none), 77, fun _ => true, false, fun _ => none⟩
    [⟨0, 1, true, ⟨3, 10⟩, ⟨4, 20⟩⟩] ⟨0, 1, 9⟩ ⟨0, 1, true, ⟨3, 10⟩, ⟨4, 20⟩⟩ ⟨0, 2⟩
    (by decide) (by decide) (by decide)).trans (by decide)

/-- C1 (amended): for a record present in the table whose bound subnet
exists, and an Update call whose supplied net_idx is the wildcard or
matches the record's binding, the call succeeds only when the subnet's
Key-Refresh phase is Phase 1, and for any other phase it returns
cannot-update leaving the whole table (both generations, AIDs, updated
flag, binding) unchanged and emitting nothing. -/
theorem update_phase_gate (subs : Nat → Option Subnet) (appId : Nat → Option Nat)
    (apps : List AppKey) (app_idx net_idx key : Nat) (app : AppKey) (sub : Subnet)
    (happ : app_get apps app_idx = some app)
    (hsub : subs app.net_idx = some sub)
    (hbind : net_idx = BT_MESH_KEY_UNUSED ∨ net_idx = app.net_idx) :
    ((bt_mesh_app_key_update subs appId apps app_idx net_idx key).status = .SUCCESS →
       sub.kr_phase = BT_MESH_KR_PHASE_1) ∧
    (sub.kr_phase ≠ BT_MESH_KR_PHASE_1 →
       bt_mesh_app_key_update subs appId apps app_idx net_idx key =
         err_result .CANNOT_UPDATE apps) := by
  have hb : ¬(net_idx ≠ BT_MESH_KEY_UNUSED ∧ app.net_idx ≠ net_idx) := by
    rcases hbind with h | h <;> simp [h]
  constructor
  · intro hs
    by_contra hph
    simp [bt_mesh_app_key_update, happ, hb, hsub, hph, err_result] at hs
  · intro hph
    simp [bt_mesh_app_key_update, happ, hb, hsub, hph, err_result]

/-- C1 counterexample: a record for app_idx 1 exists, its bound subnet
exists and is not in Phase 1, yet the Update call (with a supplied net_idx
that differs from the binding) returns invalid-binding, not the
cannot-update the claim demands for every non-Phase-1 call. -/
theorem update_phase_gate_cex :
    app_get [(⟨0, 1, false, ⟨3, 10⟩, ⟨0, 0⟩⟩ : AppKey)] 1 =
      some ⟨0, 1, false, ⟨3, 10⟩, ⟨0, 0⟩⟩ ∧
    (fun n => if n = 0 then some (⟨0, 0⟩ : Subnet) else none)
      (⟨0, 1, false, ⟨3, 10⟩, (⟨0, 0⟩ : AppCred)⟩ : AppKey).net_idx = some ⟨0, 0⟩ ∧
    (⟨0, 0⟩ : Subnet).kr_phase ≠ BT_MESH_KR_PHASE_1 ∧
    (bt_mesh_app_key_update (fun n => if n = 0 then some ⟨0, 0⟩ else none)
       (fun v => some (v % 64)) [⟨0, 1, false, ⟨3, 10⟩, ⟨0, 0⟩⟩] 1 5 99).status =
      .INVALID_BINDING ∧
    Status.INVALID_BINDING ≠ .CANNOT_UPDATE := by decide

theorem update_phase_gate_wit :
    bt_mesh_app_key_update (fun n => if n = 0 then some ⟨0, 0⟩ else none)
      (fun v => some (v % 64)) [⟨0, 1, false, ⟨3, 10⟩, ⟨0, 0⟩⟩] 1 0 99 =
      err_result .CANNOT_UPDATE [⟨0, 1, false, ⟨3, 10⟩, ⟨0, 0⟩⟩] :=
  (update_phase_gate (fun n => if n = 0 then some ⟨0, 0⟩ else none)
    (fun v => some (v % 64)) [⟨0, 1, false, ⟨3, 10⟩, ⟨0, 0⟩⟩] 1 0 99
    ⟨0, 1, false, ⟨3, 10⟩, ⟨0, 0⟩⟩ ⟨0, 0⟩ (by decide) (by decide)
    (Or.inr (by decide))).2 (by decide)

/-- C6 (amended): for an Add against an app_idx that is already stored:
bound to the same net_idx with an identical generation-0 value it succeeds
and changes nothing; bound to the same net_idx with a different value it
returns already-stored and changes nothing; and when the supplied net_idx
differs from the binding it fails with invalid-netkey (not
invalid-binding), again changing nothing. -/
theorem add_existing_idx (subs : Nat → Option Subnet) (appId : Nat → Option Nat)
    (apps : List AppKey) (app_idx net_idx key : Nat) (app : AppKey)
    (happ : app_get apps app_idx = some app) :
    (app.net_idx = net_idx → (subs net_idx).isSome = true → app.keys0.val = key →
       bt_mesh_app_key_add subs appId apps app_idx net_idx key =
         err_result .SUCCESS apps) ∧
    (app.net_idx = net_idx → (subs net_idx).isSome = true → app.keys0.val ≠ key →
       bt_mesh_app_key_add subs appId apps app_idx net_idx key =
         err_result .IDX_ALREADY_STORED apps) ∧
    (app.net_idx ≠ net_idx →
       (bt_mesh_app_key_add subs appId apps app_idx net_idx key).status =
         .INVALID_NETKEY ∧
       (bt_mesh_app_key_add subs appId apps app_idx net_idx key).apps = apps) := by
  refine ⟨?_, ?_, ?_⟩
  · intro hn hs hk
    have : (subs net_idx).isNone = false := by
      cases h : subs net_idx <;> simp [h] at hs ⊢
    simp [bt_mesh_app_key_add, this, happ, hn, hk, err_result]
  · intro hn hs hk
    have : (subs net_idx).isNone = false := by
      cases h : subs net_idx <;> simp [h] at hs ⊢
    simp [bt_mesh_app_key_add, this, happ, hn, hk, err_result]
  · intro hn
    by_cases hs : (subs net_idx).isNone = true
    · simp [bt_mesh_app_key_add, hs, err_result]
    · simp only [Bool.not_eq_true] at hs
      simp [bt_mesh_app_key_add, hs, happ, hn, err_result]

/-- C6 counterexample: app_idx 1 is stored bound to net_idx 0; Add with
net_idx 1 (an existing subnet) returns invalid-netkey, not the
invalid-binding the claim states. -/
theorem add_existing_idx_cex :
    app_get [(⟨0, 1, false, ⟨3, 10⟩, ⟨0, 0⟩⟩ : AppKey)] 1 =
      some ⟨0, 1, false, ⟨3, 10⟩, ⟨0, 0⟩⟩ ∧
    (⟨0, 1, false, ⟨3, 10⟩, (⟨0, 0⟩ : AppCred)⟩ : AppKey).net_idx ≠ 1 ∧
    (fun n => if n ≤ 1 then some (⟨n, 0⟩ : Subnet) else none) 1 = some ⟨1, 0⟩ ∧
    (bt_mesh_app_key_add (fun n => if n ≤ 1 then some ⟨n, 0⟩ else none)
       (fun v => some (v % 64)) [⟨0, 1, false, ⟨3, 10⟩, ⟨0, 0⟩⟩] 1 1 42).status =
      .INVALID_NETKEY ∧
    Status.INVALID_NETKEY ≠ .INVALID_BINDING := by decide

theorem add_existing_idx_wit :
    bt_mesh_app_key_add (fun n => if n ≤ 1 then some ⟨n, 0⟩ else none)
      (fun v => some (v % 64)) [⟨0, 1, false, ⟨3, 10⟩, ⟨0, 0⟩⟩] 1 0 10 =
      err_result .SUCCESS [⟨0, 1, false, ⟨3, 10⟩, ⟨0, 0⟩⟩] ∧
    bt_mesh_app_key_add (fun n => if n ≤ 1 then some ⟨n, 0⟩ else none)
      (fun v => some (v % 64)) [⟨0, 1, false, ⟨3, 10⟩, ⟨0, 0⟩⟩] 1 0 42 =
      err_result .IDX_ALREADY_STORED [⟨0, 1, false, ⟨3, 10⟩, ⟨0, 0⟩⟩] ∧
    (bt_mesh_app_key_add (fun n => if n ≤ 1 then some ⟨n, 0⟩ else none)
      (fun v => some (v % 64)) [⟨0, 1, false, ⟨3, 10⟩, ⟨0, 0⟩⟩] 1 1 10).status =
      .INVALID_NETKEY :=
  ⟨(add_existing_idx (fun n => if n ≤ 1 then some ⟨n, 0⟩ else none)
      (fun v => some (v % 64)) [⟨0, 1, false, ⟨3, 10⟩, ⟨0, 0⟩⟩] 1 0 10
      ⟨0, 1, false, ⟨3, 10⟩, ⟨0, 0⟩⟩ (by decide)).1 (by decide) (by decide) (by decide),
   (add_existing_idx (fun n => if n ≤ 1 then some ⟨n, 0⟩ else none)
      (fun v => some (v % 64)) [⟨0, 1, false, ⟨3, 10⟩, ⟨0, 0⟩⟩] 1 0 42
      ⟨0, 1, false, ⟨3, 10⟩, ⟨0, 0⟩⟩ (by decide)).2.1 (by decide) (by decide) (by decide),
   ((add_existing_idx (fun n => if n ≤ 1 then some ⟨n, 0⟩ else none)
      (fun v => some (v % 64)) [⟨0, 1, false, ⟨3, 10⟩, ⟨0, 0⟩⟩] 1 1 10
      ⟨0, 1, false, ⟨3, 10⟩, ⟨0, 0⟩⟩ (by decide)).2.2 (by decide)).1⟩

/-- C7 (amended): deleting an app_idx not present in the table returns
success with no table mutation, no settings request and no event, provided
the supplied net_idx is the wildcard or names an existing subnet (a
non-wildcard net_idx with no such subnet fails invalid-netkey first). -/
theorem del_unknown_idempotent (subs : Nat → Option Subnet) (apps : List AppKey)
    (app_idx net_idx : Nat)
    (happ : app_get apps app_idx = none)
    (hnet : net_idx = BT_MESH_KEY_UNUSED ∨ (subs net_idx).isSome = true) :
    bt_mesh_app_key_del subs apps app_idx net_idx = err_result .SUCCESS apps := by
  rcases hnet with h | h
  · simp [bt_mesh_app_key_del, h, happ]
  · have hs : (subs net_idx).isNone = false := by
      cases hx : subs net_idx <;> simp [hx] at h ⊢
    simp [bt_mesh_app_key_del, hs, happ]

/-- C7 counterexample: Delete of an absent app_idx with a non-wildcard
net_idx naming no existing subnet returns invalid-netkey, not the success
the claim demands for every net_index. -/
theorem del_unknown_idempotent_cex :
    app_get ([] : List AppKey) 1 = none ∧
    (bt_mesh_app_key_del (fun _ => none) [] 1 1).status = .INVALID_NETKEY ∧
    Status.INVALID_NETKEY ≠ .SUCCESS := by decide

theorem del_unknown_idempotent_wit :
    bt_mesh_app_key_del (fun n => if n = 0 then some ⟨0, 0⟩ else none)
      [⟨0, 1, false, ⟨3, 10⟩, ⟨0, 0⟩⟩] 7 0 =
      err_result .SUCCESS [⟨0, 1, false, ⟨3, 10⟩, ⟨0, 0⟩⟩] :=
  del_unknown_idempotent (fun n => if n = 0 then some ⟨0, 0⟩ else none)
    [⟨0, 1, false, ⟨3, 10⟩, ⟨0, 0⟩⟩] 7 0 (by decide) (Or.inr (by decide))

/-- C10: for an app_idx absent from the table, a failing restore
(bt_mesh_app_key_set returning a nonzero error: table full, or AID
derivation failure for either key) leaves the app_idx still absent: the
failed restore never creates a record visible to the existence check, even
though it may have written key bytes into an empty slot. -/
theorem set_failure_invisible (appId : Nat → Option Nat) (apps : List AppKey)
    (app_idx net_idx old_key : Nat) (new_key : Option Nat)
    (hex : bt_mesh_app_key_exists apps app_idx = false)
    (herr : (bt_mesh_app_key_set appId apps app_idx net_idx old_key new_key).1 ≠ 0) :
    bt_mesh_app_key_exists
      (bt_mesh_app_key_set appId apps app_idx net_idx old_key new_key).2 app_idx =
      false := by
  have hall : ∀ a ∈ apps, a.app_idx ≠ app_idx := exists_eq_false_iff.mp hex
  have hget : app_get apps app_idx = none := app_get_eq_none_iff.mpr hall
  cases hfree : app_get apps BT_MESH_KEY_UNUSED with
  | none => simpa [bt_mesh_app_key_set, hget, hfree] using hex
  | some free =>
    have hfa : free.app_idx ≠ app_idx := hall free (app_get_mem_of_eq_some hfree).1
    cases hai : appId old_key with
    | none =>
      simp only [bt_mesh_app_key_set, hget, hfree, hai]
      exact exists_replace_first_false hall hfa
    | some aid0 =>
      cases hnk : new_key with
      | none => simp [bt_mesh_app_key_set, hget, hfree, hai, hnk] at herr
      | some nk =>
        cases hai1 : appId nk with
        | none =>
          simp only [bt_mesh_app_key_set, hget, hfree, hai, hnk, hai1]
          exact exists_replace_first_false hall hfa
        | some aid1 =>
          simp [bt_mesh_app_key_set, hget, hfree, hai, hnk, hai1] at herr

theorem set_failure_invisible_wit :
    bt_mesh_app_key_exists
      (bt_mesh_app_key_set (fun _ => none)
        [⟨0xffff, 0xffff, false, ⟨0, 0⟩, ⟨0, 0⟩⟩] 1 0 42 none).2 1 = false :=
  set_failure_invisible (fun _ => none) [⟨0xffff, 0xffff, false, ⟨0, 0⟩, ⟨0, 0⟩⟩]
    1 0 42 none (by decide) (by decide)

theorem find_loop_char (aid : Nat) (rx : NetRx) (cb : Nat → Bool) :
    ∀ apps : List AppKey,
      app_key_find_loop aid rx cb apps =
        (match apps.find? (rx_candidate aid rx cb) with
         | some a => a.app_idx
         | none => BT_MESH_KEY_UNUSED)
  | [] => rfl
  | a :: rest => by
    have ih := find_loop_char aid rx cb rest
    simp only [app_key_find_loop, List.find?_cons, rx_candidate]
    cases hb : rx.newKey && a.updated with
    | false =>
      by_cases h1 : a.app_idx = BT_MESH_KEY_UNUSED <;>
        by_cases h2 : a.net_idx = rx.subNet <;>
          by_cases h3 : a.keys0.id = aid <;>
            by_cases h4 : cb a.keys0.val = true <;>
              simp [h1, h2, h3, h4, ih]
    | true =>
      by_cases h1 : a.app_idx = BT_MESH_KEY_UNUSED <;>
        by_cases h2 : a.net_idx = rx.subNet <;>
          by_cases h3 : a.keys1.id = aid <;>
            by_cases h4 : cb a.keys1.val = true <;>
              simp [h1, h2, h3, h4, ih]

/-- C3: RX app-key resolution (dev_key = false) walks the table in slot
order and returns the app_idx of the first non-empty record bound to the
receiving subnet whose selected generation (generation 1 exactly when the
new-key flag is set and the record is updated, generation 0 otherwise)
matches the given AID and whose selected key value the callback accepts —
skipping AID mismatches and continuing past callback failures — or the
UNUSED sentinel if no candidate succeeds.  In particular, with two
distinct keys of colliding AID 7 and a callback accepting only the second
key's value 200, it returns the second key's app_idx 2. -/
theorem rx_find_first_success (env : ResolveEnv) (aid : Nat) (rx : NetRx)
    (cb : Nat → Bool) (apps : List AppKey) :
    (bt_mesh_app_key_find env false aid rx cb apps =
      (match apps.find? (rx_candidate aid rx cb) with
       | some a => a.app_idx
       | none => BT_MESH_KEY_UNUSED)) ∧
    bt_mesh_app_key_find env false 7 ⟨0, false, 0, 1, true⟩ (fun v => v == 200)
      [⟨0, 1, false, ⟨7, 100⟩, ⟨0, 0⟩⟩, ⟨0, 2, false, ⟨7, 200⟩, ⟨0, 0⟩⟩] = 2 :=
  ⟨find_loop_char aid rx cb apps, rfl⟩

theorem keys_get_go_char (net_idx max : Nat) :
    ∀ (l : List AppKey) (skip : Nat) (acc : List Nat), acc.length ≤ max →
      keys_get_go net_idx max l skip acc =
        (if max < acc.length + ((key_matches net_idx l).drop skip).length then none
         else some (acc ++ (key_matches net_idx l).drop skip))
  | [], skip, acc, hacc => by
    simp [keys_get_go, key_matches, Nat.not_lt.mpr hacc]
  | app :: rest, skip, acc, hacc => by
    by_cases h1 : app.app_idx = BT_MESH_KEY_UNUSED
    · have hm : key_matches net_idx (app :: rest) = key_matches net_idx rest := by
        simp [key_matches, h1]
      rw [hm]
      simpa [keys_get_go, h1] using keys_get_go_char net_idx max rest skip acc hacc
    · by_cases h2 : net_idx ≠ BT_MESH_KEY_ANY ∧ app.net_idx ≠ net_idx
      · have hm : key_matches net_idx (app :: rest) = key_matches net_idx rest := by
          rcases h2 with ⟨h2a, h2b⟩
          simp [key_matches, h1, h2a, h2b]
        rw [hm]
        simpa [keys_get_go, h1, h2] using keys_get_go_char net_idx max rest skip acc hacc
      · have hm : key_matches net_idx (app :: rest) =
            app.app_idx :: key_matches net_idx rest := by
          rcases Decidable.not_and_iff_or_not.mp h2 with h | h <;>
            simp only [ne_eq, Decidable.not_not] at h <;>
              simp [key_matches, h1, h]
        rw [hm]
        cases skip with
        | zero =>
          by_cases h4 : max ≤ acc.length
          · have hgo : keys_get_go net_idx max (app :: rest) 0 acc = none := by
              simp [keys_get_go, h1, h2, h4]
            rw [hgo, List.drop_zero, List.length_cons, if_pos (by omega)]
          · have hlt : acc.length < max := Nat.lt_of_not_le h4
            have ih := keys_get_go_char net_idx max rest 0 (acc ++ [app.app_idx])
              (by simpa using hlt)
            have hgo : keys_get_go net_idx max (app :: rest) 0 acc =
                keys_get_go net_idx max rest 0 (acc ++ [app.app_idx]) := by
              simp [keys_get_go, h1, h2, h4]
            rw [hgo, ih]
            simp only [List.drop_zero, List.length_append, List.length_cons,
              List.length_nil, List.append_assoc, List.singleton_append]
            by_cases hc : max < acc.length + ((key_matches net_idx rest).length + 1)
            · rw [if_pos (by omega), if_pos hc]
            · rw [if_neg (by omega), if_neg hc]
        | succ n =>
          have ih := keys_get_go_char net_idx max rest n acc hacc
          have hgo : keys_get_go net_idx max (app :: rest) (n + 1) acc =
              keys_get_go net_idx max rest n acc := by
            simp [keys_get_go, h1, h2]
          rw [hgo, ih, List.drop_succ_cons]

theorem key_matches_any (apps : List AppKey) :
    key_matches BT_MESH_KEY_ANY apps =
      (apps.filter (fun a => a.app_idx != BT_MESH_KEY_UNUSED)).map
        (fun a => a.app_idx) := by
  have hp : (fun a : AppKey => decide (a.app_idx ≠ BT_MESH_KEY_UNUSED ∧
      (BT_MESH_KEY_ANY = BT_MESH_KEY_ANY ∨ a.net_idx = BT_MESH_KEY_ANY))) =
      (fun a : AppKey => a.app_idx != BT_MESH_KEY_UNUSED) := by
    funext a
    by_cases h : a.app_idx = BT_MESH_KEY_UNUSED <;> simp [h]
  unfold key_matches
  rw [hp]

/-- C8: enumeration.  The general call equals the contiguous window of
matching indices that remain after dropping the first `skip` matches,
failing with the capacity error exactly when that window exceeds `max`;
with the wildcard subnet filter and a buffer at least as large as the
number of non-empty slots it returns exactly the app indices of the
non-empty slots (in slot order), whose membership is exactly the set of
app_idx values of non-empty records. -/
theorem enumerate_window (apps : List AppKey) (net_idx max skip : Nat) :
    (bt_mesh_app_keys_get apps net_idx max skip =
      (if max < ((key_matches net_idx apps).drop skip).length then none
       else some ((key_matches net_idx apps).drop skip))) ∧
    (∀ k : Nat,
      bt_mesh_app_keys_get apps BT_MESH_KEY_ANY
        (((apps.filter (fun a => a.app_idx != BT_MESH_KEY_UNUSED)).map
            (fun a => a.app_idx)).length + k) 0 =
        some ((apps.filter (fun a => a.app_idx != BT_MESH_KEY_UNUSED)).map
          (fun a => a.app_idx))) ∧
    (∀ x : Nat, x ∈ key_matches BT_MESH_KEY_ANY apps ↔
      ∃ a ∈ apps, a.app_idx = x ∧ x ≠ BT_MESH_KEY_UNUSED) := by
  refine ⟨?_, ?_, ?_⟩
  · have h := keys_get_go_char net_idx max apps skip [] (by simp)
    simpa [bt_mesh_app_keys_get] using h
  · intro k
    have h := keys_get_go_char BT_MESH_KEY_ANY
      (((apps.filter (fun a => a.app_idx != BT_MESH_KEY_UNUSED)).map
          (fun a => a.app_idx)).length + k) apps 0 [] (by simp)
    unfold bt_mesh_app_keys_get
    rw [h, key_matches_any]
    simp
  · intro x
    rw [key_matches_any]
    simp only [List.mem_map, List.mem_filter, bne_iff_ne, ne_eq]
    constructor
    · rintro ⟨a, ⟨ha, hne⟩, hx⟩
      exact ⟨a, ha, hx, hx ▸ hne⟩
    · rintro ⟨a, ha, hx, hne⟩
      exact ⟨a, ⟨ha, hx ▸ hne⟩, hx⟩

theorem subnet_evt_del_char (sub : Subnet) :
    ∀ apps : List AppKey,
      subnet_evt_go sub .DELETED apps =
        (apps.map (fun a =>
           if a.app_idx != BT_MESH_KEY_UNUSED && a.net_idx == sub.net_idx
           then (app_key_del_rec a).1 else a),
         (apps.filter (fun a =>
            a.app_idx != BT_MESH_KEY_UNUSED && a.net_idx == sub.net_idx)).map
           (fun a => (a.app_idx, false)),
         (apps.filter (fun a =>
            a.app_idx != BT_MESH_KEY_UNUSED && a.net_idx == sub.net_idx)).map
           (fun a => (a.app_idx, a.net_idx, KeyEvt.DELETED)))
  | [] => rfl
  | a :: rest => by
    have ih := subnet_evt_del_char sub rest
    by_cases h1 : a.app_idx = BT_MESH_KEY_UNUSED
    · simp [subnet_evt_go, ih, h1]
    · by_cases h2 : a.net_idx = sub.net_idx
      · simp [subnet_evt_go, ih, h1, h2, app_key_del_rec]
      · simp [subnet_evt_go, ih, h1, h2]

/-- C5: a DELETED subnet event for subnet `sub` deletes every non-empty
record bound to `sub` (the slot is emptied with both indices reset to the
UNUSED sentinel and the key material zeroed) and emits a DELETED lifecycle
event per such record; consequently, when non-empty slots carry pairwise
distinct app indices, every app_idx that was bound to `sub` no longer
exists afterwards, preserving the invariant that live records reference
only existing subnets. -/
theorem subnet_delete_cascades (sub : Subnet) (apps : List AppKey) (a0 : Nat)
    (hnd : ((apps.filter (fun a => a.app_idx != BT_MESH_KEY_UNUSED)).map
      (fun a => a.app_idx)).Nodup)
    (h0 : a0 ≠ BT_MESH_KEY_UNUSED)
    (hmem : ∃ a ∈ apps, a.app_idx = a0 ∧ a.net_idx = sub.net_idx) :
    ((subnet_evt sub .DELETED apps).1 =
       apps.map (fun a =>
         if a.app_idx != BT_MESH_KEY_UNUSED && a.net_idx == sub.net_idx
         then ⟨BT_MESH_KEY_UNUSED, BT_MESH_KEY_UNUSED, a.updated, ⟨0, 0⟩, ⟨0, 0⟩⟩
         else a)) ∧
    ((subnet_evt sub .DELETED apps).2.2 =
       (apps.filter (fun a =>
          a.app_idx != BT_MESH_KEY_UNUSED && a.net_idx == sub.net_idx)).map
         (fun a => (a.app_idx, a.net_idx, KeyEvt.DELETED))) ∧
    bt_mesh_app_key_exists (subnet_evt sub .DELETED apps).1 a0 = false := by
  obtain ⟨b, hb, hba, hbn⟩ := hmem
  have hsub : subnet_evt sub .DELETED apps = subnet_evt_go sub .DELETED apps := by
    simp [subnet_evt]
  refine ⟨?_, ?_, ?_⟩
  · rw [hsub, subnet_evt_del_char]
    simp [app_key_del_rec]
  · rw [hsub, subnet_evt_del_char]
  · rw [hsub, subnet_evt_del_char]
    refine exists_eq_false_iff.mpr (fun c hc => ?_)
    rw [List.mem_map] at hc
    obtain ⟨a, ha, hac⟩ := hc
    by_cases hcas : (a.app_idx != BT_MESH_KEY_UNUSED && a.net_idx == sub.net_idx) = true
    · rw [if_pos hcas] at hac
      subst hac
      simpa using h0.symm
    · rw [if_neg hcas] at hac
      subst hac
      intro hax
      have hbne : b.app_idx ≠ BT_MESH_KEY_UNUSED := hba ▸ h0
      have hane : a.app_idx ≠ BT_MESH_KEY_UNUSED := hax ▸ h0
      have hanet : ¬ a.net_idx = sub.net_idx := by
        intro hn
        exact hcas (by simp [hane, hn])
      have haf : a ∈ apps.filter (fun x => x.app_idx != BT_MESH_KEY_UNUSED) :=
        List.mem_filter.mpr ⟨ha, by simp [hane]⟩
      have hbf : b ∈ apps.filter (fun x => x.app_idx != BT_MESH_KEY_UNUSED) :=
        List.mem_filter.mpr ⟨hb, by simp [hbne]⟩
      have heq : a = b :=
        List.inj_on_of_nodup_map hnd haf hbf (by rw [hax, hba])
      exact hanet (heq ▸ hbn)

theorem subnet_delete_cascades_wit :
    bt_mesh_app_key_exists
      (subnet_evt ⟨0, 0⟩ .DELETED
        [⟨0, 1, false, ⟨3, 10⟩, ⟨0, 0⟩⟩, ⟨7, 2, false, ⟨4, 11⟩, ⟨0, 0⟩⟩,
         ⟨0, 3, true, ⟨5, 12⟩, ⟨6, 13⟩⟩]).1 1 = false :=
  (subnet_delete_cascades ⟨0, 0⟩
    [⟨0, 1, false, ⟨3, 10⟩, ⟨0, 0⟩⟩, ⟨7, 2, false, ⟨4, 11⟩, ⟨0, 0⟩⟩,
     ⟨0, 3, true, ⟨5, 12⟩, ⟨6, 13⟩⟩] 1 (by decide) (by decide) (by decide)).2.2

theorem tr_find_go_fst_of_none (k : Nat) :
    ∀ (l : List AppKeyUpdate) (i : Nat) (m f : Option Nat),
      (app_key_update_find_go k l i (m, f)).1 = none →
      m = none ∧ ∀ u ∈ l, u.valid = true → u.key_idx ≠ k
  | [], i, m, f, h => by
    simp only [app_key_update_find_go] at h
    exact ⟨h, by simp⟩
  | u :: rest, i, m, f, h => by
    simp only [app_key_update_find_go] at h
    by_cases hv : u.valid = false
    · rw [if_pos hv] at h
      obtain ⟨hm, hrest⟩ := tr_find_go_fst_of_none k rest (i + 1) m (some i) h
      refine ⟨hm, fun x hx hxv => ?_⟩
      rcases List.mem_cons.mp hx with rfl | hx'
      · rw [hxv] at hv
        simp at hv
      · exact hrest x hx' hxv
    · rw [if_neg hv] at h
      by_cases hk : u.key_idx = k
      · rw [if_pos hk] at h
        obtain ⟨hm, _⟩ := tr_find_go_fst_of_none k rest (i + 1) (some i) f h
        exact absurd hm (by simp)
      · rw [if_neg hk] at h
        obtain ⟨hm, hrest⟩ := tr_find_go_fst_of_none k rest (i + 1) m f h
        refine ⟨hm, fun x hx hxv => ?_⟩
        rcases List.mem_cons.mp hx with rfl | hx'
        · exact hk
        · exact hrest x hx' hxv

theorem tr_find_go_fst_all (k : Nat) :
    ∀ (l : List AppKeyUpdate) (i : Nat) (m f : Option Nat),
      (∀ u ∈ l, u.valid = true → u.key_idx ≠ k) →
      (app_key_update_find_go k l i (m, f)).1 = m
  | [], _, _, _, _ => rfl
  | u :: rest, i, m, f, h => by
    simp only [app_key_update_find_go]
    by_cases hv : u.valid = false
    · rw [if_pos hv]
      exact tr_find_go_fst_all k rest (i + 1) m (some i)
        (fun x hx => h x (List.mem_cons_of_mem _ hx))
    · rw [if_neg hv]
      have hval : u.valid = true := by simpa using hv
      rw [if_neg (h u (List.mem_cons_self _ _) hval)]
      exact tr_find_go_fst_all k rest (i + 1) m f
        (fun x hx => h x (List.mem_cons_of_mem _ hx))

theorem tr_find_go_snd_all (k : Nat) :
    ∀ (l : List AppKeyUpdate) (i : Nat) (m f : Option Nat),
      (∀ u ∈ l, u.valid = true) →
      (app_key_update_find_go k l i (m, f)).2 = f
  | [], _, _, _, _ => rfl
  | u :: rest, i, m, f, h => by
    simp only [app_key_update_find_go]
    have hval : u.valid = true := h u (List.mem_cons_self _ _)
    rw [if_neg (by simp [hval])]
    by_cases hk : u.key_idx = k
    · rw [if_pos hk]
      exact tr_find_go_snd_all k rest (i + 1) (some i) f
        (fun x hx => h x (List.mem_cons_of_mem _ hx))
    · rw [if_neg hk]
      exact tr_find_go_snd_all k rest (i + 1) m f
        (fun x hx => h x (List.mem_cons_of_mem _ hx))

theorem tr_find_go_fst_stays (k : Nat) :
    ∀ (l : List AppKeyUpdate) (i j : Nat) (f : Option Nat),
      (app_key_update_find_go k l i (some j, f)).1.isSome = true
  | [], _, _, _ => rfl
  | u :: rest, i, j, f => by
    simp only [app_key_update_find_go]
    by_cases hv : u.valid = false
    · rw [if_pos hv]
      exact tr_find_go_fst_stays k rest (i + 1) j (some i)
    · rw [if_neg hv]
      by_cases hk : u.key_idx = k
      · rw [if_pos hk]
        exact tr_find_go_fst_stays k rest (i + 1) i f
      · rw [if_neg hk]
        exact tr_find_go_fst_stays k rest (i + 1) j f

theorem tr_find_go_fst_mem (k : Nat) :
    ∀ (l : List AppKeyUpdate) (i : Nat) (m f : Option Nat),
      (∃ u ∈ l, u.valid = true ∧ u.key_idx = k) →
      (app_key_update_find_go k l i (m, f)).1.isSome = true
  | [], _, _, _, h => by simp at h
  | u :: rest, i, m, f, h => by
    simp only [app_key_update_find_go]
    obtain ⟨x, hx, hxv, hxk⟩ := h
    rcases List.mem_cons.mp hx with rfl | hx'
    · rw [if_neg (by simp [hxv]), if_pos hxk]
      exact tr_find_go_fst_stays k rest (i + 1) i f
    · by_cases hv : u.valid = false
      · rw [if_pos hv]
        exact tr_find_go_fst_mem k rest (i + 1) m (some i) ⟨x, hx', hxv, hxk⟩
      · rw [if_neg hv]
        by_cases hk : u.key_idx = k
        · rw [if_pos hk]
          exact tr_find_go_fst_stays k rest (i + 1) i f
        · rw [if_neg hk]
          exact tr_find_go_fst_mem k rest (i + 1) m f ⟨x, hx', hxv, hxk⟩

theorem tr_find_go_fst_pos (k : Nat) :
    ∀ (l : List AppKeyUpdate) (i j : Nat) (m f : Option Nat),
      (app_key_update_find_go k l i (m, f)).1 = some j →
      m = some j ∨ (i ≤ j ∧ j - i < l.length ∧
        (l.getD (j - i) default).valid = true ∧ (l.getD (j - i) default).key_idx = k)
  | [], i, j, m, f, h => by
    simp only [app_key_update_find_go] at h
    exact Or.inl h
  | u :: rest, i, j, m, f, h => by
    simp only [app_key_update_find_go] at h
    have lift : ∀ m' : Option Nat,
        (app_key_update_find_go k rest (i + 1) (m', f)).1 = some j → m' = some j ∨
          (i ≤ j ∧ j - i < (u :: rest).length ∧
            (( u :: rest).getD (j - i) default).valid = true ∧
            ((u :: rest).getD (j - i) default).key_idx = k) := by
      intro m' h'
      rcases tr_find_go_fst_pos k rest (i + 1) j m' f h' with hm | ⟨hij, hlen, hval, hkey⟩
      · exact Or.inl hm
      · refine Or.inr ⟨by omega, by simp only [List.length_cons]; omega, ?_, ?_⟩
        · have he : j - i = (j - (i + 1)) + 1 := by omega
          rw [he, List.getD_cons_succ]
          exact hval
        · have he : j - i = (j - (i + 1)) + 1 := by omega
          rw [he, List.getD_cons_succ]
          exact hkey
    by_cases hv : u.valid = false
    · rw [if_pos hv] at h
      have lift2 : ∀ f' : Option Nat,
          (app_key_update_find_go k rest (i + 1) (m, f')).1 = some j → m = some j ∨
            (i ≤ j ∧ j - i < (u :: rest).length ∧
              ((u :: rest).getD (j - i) default).valid = true ∧
              ((u :: rest).getD (j - i) default).key_idx = k) := by
        intro f' h'
        rcases tr_find_go_fst_pos k rest (i + 1) j m f' h' with hm | ⟨hij, hlen, hval, hkey⟩
        · exact Or.inl hm
        · refine Or.inr ⟨by omega, by simp only [List.length_cons]; omega, ?_, ?_⟩
          · have he : j - i = (j - (i + 1)) + 1 := by omega
            rw [he, List.getD_cons_succ]
            exact hval
          · have he : j - i = (j - (i + 1)) + 1 := by omega
            rw [he, List.getD_cons_succ]
            exact hkey
      exact lift2 (some i) h
    · rw [if_neg hv] at h
      have hval : u.valid = true := by simpa using hv
      by_cases hk : u.key_idx = k
      · rw [if_pos hk] at h
        rcases lift (some i) h with hm | hres
        · have hji : j = i := by
            injection hm with hm'
            omega
          subst hji
          refine Or.inr ⟨Nat.le_refl _, by simp, ?_, ?_⟩
          · simpa [Nat.sub_self] using hval
          · simpa [Nat.sub_self] using hk
        · exact Or.inr hres
      · rw [if_neg hk] at h
        exact lift m h

theorem tr_find_go_snd_pos (k : Nat) :
    ∀ (l : List AppKeyUpdate) (i j : Nat) (m f : Option Nat),
      (app_key_update_find_go k l i (m, f)).2 = some j →
      f = some j ∨ (i ≤ j ∧ j - i < l.length ∧
        (l.getD (j - i) default).valid = false)
  | [], i, j, m, f, h => by
    simp only [app_key_update_find_go] at h
    exact Or.inl h
  | u :: rest, i, j, m, f, h => by
    simp only [app_key_update_find_go] at h
    have lift : ∀ (m' : Option Nat) (f' : Option Nat),
        (app_key_update_find_go k rest (i + 1) (m', f')).2 = some j → f' = some j ∨
          (i ≤ j ∧ j - i < (u :: rest).length ∧
            ((u :: rest).getD (j - i) default).valid = false) := by
      intro m' f' h'
      rcases tr_find_go_snd_pos k rest (i + 1) j m' f' h' with hf | ⟨hij, hlen, hval⟩
      · exact Or.inl hf
      · refine Or.inr ⟨by omega, by simp only [List.length_cons]; omega, ?_⟩
        have he : j - i = (j - (i + 1)) + 1 := by omega
        rw [he, List.getD_cons_succ]
        exact hval
    by_cases hv : u.valid = false
    · rw [if_pos hv] at h
      rcases lift m (some i) h with hf | hres
      · have hji : j = i := by
          injection hf with hf'
          omega
        subst hji
        refine Or.inr ⟨Nat.le_refl _, by simp, ?_⟩
        simpa [Nat.sub_self] using hv
      · exact Or.inr hres
    · rw [if_neg hv] at h
      by_cases hk : u.key_idx = k
      · rw [if_pos hk] at h
        rcases lift (some i) f h with hf | hres
        · exact Or.inl hf
        · exact Or.inr hres
      · rw [if_neg hk] at h
        rcases lift m f h with hf | hres
        · exact Or.inl hf
        · exact Or.inr hres

theorem updCount_cons (k : Nat) (u : AppKeyUpdate) (tr : List AppKeyUpdate) :
    updCount k (u :: tr) =
      updCount k tr + (if (u.valid && u.key_idx == k) = true then 1 else 0) := by
  by_cases h : (u.valid && u.key_idx == k) = true <;>
    simp [updCount, List.filter_cons, h]

theorem updCount_set_same (k : Nat) :
    ∀ (tr : List AppKeyUpdate) (i : Nat) (v : AppKeyUpdate),
      v.valid = (tr.getD i default).valid → v.key_idx = (tr.getD i default).key_idx →
      updCount k (tr.set i v) = updCount k tr
  | [], _, _, _, _ => rfl
  | u :: rest, 0, v, hv, hk => by
    simp only [List.getD_cons_zero] at hv hk
    rw [List.set_cons_zero, updCount_cons, updCount_cons, hv, hk]
  | u :: rest, i + 1, v, hv, hk => by
    simp only [List.getD_cons_succ] at hv hk
    rw [List.set_cons_succ, updCount_cons, updCount_cons,
      updCount_set_same k rest i v hv hk]

theorem map_kv_set_same :
    ∀ (tr : List AppKeyUpdate) (i : Nat) (v : AppKeyUpdate),
      v.valid = (tr.getD i default).valid → v.key_idx = (tr.getD i default).key_idx →
      (tr.set i v).map (fun u => (u.key_idx, u.valid)) =
        tr.map (fun u => (u.key_idx, u.valid))
  | [], _, _, _, _ => rfl
  | u :: rest, 0, v, hv, hk => by
    simp only [List.getD_cons_zero] at hv hk
    rw [List.set_cons_zero]
    simp [hv, hk]
  | u :: rest, i + 1, v, hv, hk => by
    simp only [List.getD_cons_succ] at hv hk
    rw [List.set_cons_succ]
    simp [map_kv_set_same rest i v hv hk]

theorem updCount_set_invalid (j k : Nat) (c : Bool) :
    ∀ (tr : List AppKeyUpdate) (p : Nat), p < tr.length →
      (tr.getD p default).valid = false →
      updCount j (tr.set p ⟨k, true, c⟩) =
        updCount j tr + (if j = k then 1 else 0)
  | [], p, hlen, _ => by simp at hlen
  | u :: rest, 0, _, hval => by
    simp only [List.getD_cons_zero] at hval
    rw [List.set_cons_zero, updCount_cons, updCount_cons]
    by_cases hjk : j = k
    · subst hjk
      simp [hval]
    · simp [hval, hjk, Ne.symm hjk]
  | u :: rest, p + 1, hlen, hval => by
    simp only [List.getD_cons_succ] at hval
    simp only [List.length_cons] at hlen
    rw [List.set_cons_succ, updCount_cons, updCount_cons,
      updCount_set_invalid j k c rest p (by omega) hval]
    omega

theorem updCount_zero (k : Nat) :
    ∀ tr : List AppKeyUpdate,
      (∀ u ∈ tr, u.valid = true → u.key_idx ≠ k) → updCount k tr = 0
  | [], _ => rfl
  | u :: rest, h => by
    have hcond : (u.valid && u.key_idx == k) = false := by
      cases hv : u.valid
      · simp
      · simp [h u (List.mem_cons_self _ _) hv]
    rw [updCount_cons, updCount_zero k rest (fun x hx => h x (List.mem_cons_of_mem _ hx))]
    simp [hcond]

/-- C9: the Pending-Write Tracker.  (a) When no tracker entry records the
key index and every slot is occupied (tracker full), the dirty-mark
request performs the durable store or clear for that one key immediately
and synchronously, leaving the tracker unchanged — the request is never
dropped.  (b) When a valid entry for the key index already exists, the
request only schedules a flush and the resulting tracker is the old one
with exactly that matched valid entry's clear flag overwritten to the
request's clear value — no new slot is allocated (every slot keeps its
key_idx and valid flag).
(c) The at-most-one-valid-entry-per-key-index invariant is preserved by
every dirty-mark request. -/
theorem tracker_pressure_and_dedup (tr : List AppKeyUpdate) (k : Nat) (store : Bool) :
    ((∀ u ∈ tr, u.valid = true) → (∀ u ∈ tr, u.key_idx ≠ k) →
       update_app_key_settings k store tr =
         (tr, if store then .storeNow k else .clearNow k)) ∧
    ((∃ u ∈ tr, u.valid = true ∧ u.key_idx = k) →
       ∃ i, i < tr.length ∧ (tr.getD i default).valid = true ∧
         (tr.getD i default).key_idx = k ∧
         update_app_key_settings k store tr =
           (tr.set i { tr.getD i default with clear := !store }, .scheduled) ∧
         (update_app_key_settings k store tr).1.map (fun u => (u.key_idx, u.valid)) =
           tr.map (fun u => (u.key_idx, u.valid))) ∧
    ((∀ j, updCount j tr ≤ 1) →
       ∀ j, updCount j (update_app_key_settings k store tr).1 ≤ 1) := by
  refine ⟨?_, ?_, ?_⟩
  · intro hval hkey
    have h1 : (app_key_update_find k tr).1 = none :=
      tr_find_go_fst_all k tr 0 none none (fun u hu _ => hkey u hu)
    have h2 : (app_key_update_find k tr).2 = none :=
      tr_find_go_snd_all k tr 0 none none hval
    have hf : app_key_update_find k tr =
        ((app_key_update_find k tr).1, (app_key_update_find k tr).2) := rfl
    rw [h1, h2] at hf
    simp [update_app_key_settings, hf]
  · intro hex
    have hs : (app_key_update_find k tr).1.isSome = true :=
      tr_find_go_fst_mem k tr 0 none none hex
    rcases hfind : app_key_update_find k tr with ⟨m, f⟩
    rw [hfind] at hs
    cases m with
    | none => simp at hs
    | some i =>
      have h1 : (app_key_update_find_go k tr 0 (none, none)).1 = some i := by
        have hh : (app_key_update_find k tr).1 = some i := by rw [hfind]
        exact hh
      rcases tr_find_go_fst_pos k tr 0 i none none h1 with hm | ⟨_, hlen, hval, hkey⟩
      · simp at hm
      · refine ⟨i, by simpa using hlen, by simpa using hval, by simpa using hkey, ?_, ?_⟩
        · simp [update_app_key_settings, hfind]
        · simp only [update_app_key_settings, hfind]
          exact map_kv_set_same tr i _ rfl rfl
  · intro hinv j
    rcases hfind : app_key_update_find k tr with ⟨m, f⟩
    cases m with
    | some i =>
      simp only [update_app_key_settings, hfind]
      rw [updCount_set_same j tr i
        ⟨(tr.getD i default).key_idx, (tr.getD i default).valid, !store⟩ rfl rfl]
      exact hinv j
    | none =>
      cases f with
      | none =>
        simp only [update_app_key_settings, hfind]
        exact hinv j
      | some p =>
        have h1 : (app_key_update_find_go k tr 0 (none, none)).1 = none := by
          have : (app_key_update_find k tr).1 = none := by rw [hfind]
          exact this
        have hnok := (tr_find_go_fst_of_none k tr 0 none none h1).2
        have h2 : (app_key_update_find_go k tr 0 (none, none)).2 = some p := by
          have : (app_key_update_find k tr).2 = some p := by rw [hfind]
          exact this
        rcases tr_find_go_snd_pos k tr 0 p none none h2 with hf0 | ⟨_, hlen, hval⟩
        · simp at hf0
        · simp only [update_app_key_settings, hfind]
          rw [updCount_set_invalid j k (!store) tr p
            (by simpa using hlen) (by simpa using hval)]
          by_cases hjk : j = k
          · subst hjk
            rw [updCount_zero j tr hnok]
            simp
          · simpa [hjk] using hinv j

theorem tracker_pressure_and_dedup_wit :
    update_app_key_settings 7 true [⟨5, true, false⟩] =
      ([⟨5, true, false⟩], .storeNow 7) ∧
    update_app_key_settings 5 false [⟨5, true, false⟩] =
      ([⟨5, true, true⟩], .scheduled) := by
  refine ⟨(tracker_pressure_and_dedup [⟨5, true, false⟩] 7 true).1
    (by decide) (by decide), ?_⟩
  obtain ⟨i, hi, _, _, heq, _⟩ :=
    (tracker_pressure_and_dedup [⟨5, true, false⟩] 5 false).2.1 (by decide)
  have hi0 : i = 0 := by
    simp only [List.length_cons, List.length_nil] at hi
    omega
  subst hi0
  simpa using heq
